import Mathlib

/-!
Shallow embedding of the pwatch core (time-series counters, panel ordering,
layout packing and the scroll window) together with proofs of the spec's
claims about it.  Rust `u64`/`u16`/`usize` quantities are modelled as `Nat`,
with an explicit `% 2 ^ 64` where the source's `u64` arithmetic can overflow
(the range products in `calculate_range`; the other modelled paths cannot
wrap for the fields the theorems speak about), `f64` values fed with exactly
representable dyadic inputs are modelled as `Rat`, `SystemTime` as a `Nat`
timestamp and `Option<T>` as `Option`.
-/

namespace PWatch

/-! ### ux.rs -/

/-- `ux::round_to_hundred`: round `v` up to the next multiple of 100. -/
def round_to_hundred (v : Nat) : Nat :=
  if v % 100 = 0 then v
  else (v / 100 + 1) * 100

/-- The `while val >= 1024` loop inside `ux::short_round`, with the running
`val` and `coef` as parameters. -/
def short_round_loop (val : Nat) (coef : Nat) (down : Bool) : Nat × Nat :=
  if h : 1024 ≤ val then
    let coef' := coef * 1024
    let delta := if val % 1024 = 0 then 0 else 1
    let v := val / 1024
    let v' := if down = false then v + delta else v
    short_round_loop v' coef' down
  else
    (val, coef)
termination_by val
decreasing_by
  have h1 : val / 1024 * 1024 ≤ val := Nat.div_mul_le_self _ _
  have h2 : 1 ≤ val / 1024 := (Nat.one_le_div_iff (by norm_num)).2 h
  split <;> (try split) <;> omega

/-- `ux::short_round`: express `val` as `(digits, scale)` with the scale a
power of 1024, rounding the digits down or up. -/
def short_round (val : Nat) (down : Bool) : Nat × Nat :=
  if val < 1024 then (val, 1)
  else
    let delta := if val % 1024 = 0 then 0 else 1
    let v := val / 1024
    let v' := if down = false ∧ delta ≠ 0 then v + 1 else v
    short_round_loop v' 1024 down

/-! ### config.rs -/

def GRAPH_AREA : Nat := 5

/-- `config::Pack`: how CPU and MEM graphs of one process are displayed. -/
inductive Pack where
  | Line
  | Side
deriving DecidableEq

/-- `config::Detail`: graph glyph granularity. -/
inductive Detail where
  | Low
  | Medium
  | High
deriving DecidableEq

/-- `config::TitleMode`: what to show as process title. -/
inductive TitleMode where
  | Cmd
  | Exe
  | Title
deriving DecidableEq

/-- `config::Graph`: which resource graphs to show. -/
inductive Graph where
  | All
  | Mem
  | Cpu
deriving DecidableEq

/-- `config::GraphPosition`: how to place CPU and MEM graphs. -/
inductive GraphPosition where
  | Auto
  | Sided
  | Top
deriving DecidableEq

/-- `config::Config` (process ids modelled as `Nat`). -/
structure Config where
  pid_list : List Nat
  filter : String
  detail : Detail
  scale_max : Bool
  freq : Nat
  title_mode : TitleMode
  graphs : Graph
  graph_pos : GraphPosition
deriving DecidableEq

/-- `impl Default for Config`. -/
def Config.default : Config :=
  { pid_list := []
    detail := Detail.High
    filter := ""
    scale_max := false
    freq := 1000
    title_mode := TitleMode.Cmd
    graphs := Graph.All
    graph_pos := GraphPosition.Auto }

/-- `Config::steps`: number of non-empty glyphs for the current detail. -/
def Config.steps (c : Config) : Nat :=
  match c.detail with
  | Detail.Low => 1
  | Detail.Medium => 2
  | Detail.High => 8

/-- `Config::min_graph_height`. -/
def Config.min_graph_height (c : Config) : Nat :=
  if c.graph_pos = GraphPosition.Top ∧ c.graphs = Graph.All then
    GRAPH_AREA * 2 + 2 + 2
  else
    GRAPH_AREA + 1 + 1 + 1

/-- `Config::max_graph_height`. -/
def Config.max_graph_height (c : Config) : Nat :=
  if c.graph_pos = GraphPosition.Sided ∨ c.graphs ≠ Graph.All then
    GRAPH_AREA + 1 + 1 + 1
  else
    GRAPH_AREA * 2 + 2 + 2

/-- `Config::packer`: decide stacked (`Line`) vs side-by-side (`Side`). -/
def Config.packer (c : Config) (proc_count : Nat) (height : Nat) : Pack :=
  match c.graph_pos with
  | GraphPosition.Sided => Pack.Side
  | GraphPosition.Top => Pack.Line
  | GraphPosition.Auto =>
    let max := c.max_graph_height
    if max * proc_count ≤ height then Pack.Line else Pack.Side

/-- `Config::graph_height`: per-panel height for `proc_count` panels in
`height` drawing rows. -/
def Config.graph_height (c : Config) (proc_count : Nat) (height : Nat) : Nat :=
  let h := if c.packer proc_count height = Pack.Line then
    c.max_graph_height
  else
    c.min_graph_height
  if proc_count = 0 then h
  else
    let ph := h * proc_count
    if ph < height then h + (height - ph) / proc_count else h

/-- `Config::visible_count`: how many panels fit on screen. -/
def Config.visible_count (c : Config) (proc_count : Nat) (height : Nat) : Nat :=
  let h := c.graph_height proc_count height
  let vis := height / h
  if vis < proc_count then vis else proc_count

/-! ### counter.rs -/

/-- Glyph set for `Detail::Low`. -/
def LOW : List Char := [' ', '█']

/-- Glyph set for `Detail::Medium`. -/
def MED : List Char := [' ', '▄', '█']

/-- Glyph set for `Detail::High`: the nine-level block ramp. -/
def HGH : List Char := [' ', '▁', '▂', '▃', '▄', '▅', '▆', '▇', '█']

/-- `counter::Counter`: a bounded rolling buffer of `u64` samples plus its
scaling state and rasterized grid. -/
structure Counter where
  values : List Nat
  display_cnt : Nat
  max : Nat
  scale_to : Nat
  auto_scale : Bool
  mark_value : Option Nat
  w : Nat
  h : Nat
  screen : List Char
  gmin : Nat
  gmax : Nat
deriving DecidableEq

/-- `impl Default for Counter`. -/
def Counter.default : Counter :=
  { values := []
    display_cnt := 40
    scale_to := 0
    max := 0
    auto_scale := false
    w := 0
    h := 0
    screen := []
    gmin := 0
    gmax := 0
    mark_value := none }

/-- `Counter::add`: append a sample, updating the running maximum and the
fixed scale, dropping the oldest sample once `display_cnt` is reached. -/
def Counter.add (c : Counter) (val : Nat) : Counter :=
  let c := if val > c.max then { c with max := val } else c
  let c := if c.scale_to ≠ 0 ∧ c.scale_to < val then
    { c with scale_to := round_to_hundred val }
  else c
  let l := c.values.length
  if l = 0 ∨ l < c.display_cnt then
    { c with values := c.values ++ [val] }
  else
    -- the source shifts every element left by one and overwrites the last slot
    { c with values := c.values.tail ++ [val] }

/-- `Counter::last`: the current value, 0 when the buffer is empty. -/
def Counter.last (c : Counter) : Nat :=
  match c.values.getLast? with
  | none => 0
  | some v => v

/-- `Counter::calculate_range`: recompute `gmin`/`gmax` from the retained
buffer, rounding the minimum down and the maximum up with `short_round`, and
bumping the max digits by one when both round to the same digits.  The two
digit-times-scale products are `u64` multiplications in the source, so they
are reduced `% 2 ^ 64` (release builds wrap on overflow). -/
def Counter.calculate_range (c : Counter) : Counter :=
  if c.auto_scale = false ∨ c.values = [] then c
  else
    let min := c.values.foldl (fun m v => if m > v then v else m) (c.values.headD 0)
    let max := c.values.foldl (fun m v => if m < v then v else m) 0
    let mn := short_round min true
    let mx := short_round max false
    let max_rnd := if mn.1 = mx.1 then mx.1 + 1 else mx.1
    { c with gmin := mn.1 * mn.2 % 2 ^ 64, gmax := max_rnd * mx.2 % 2 ^ 64 }

/-- `Counter::toggle_mark`: capture the latest value as the mark baseline
when unset, clear it when set. -/
def Counter.toggle_mark (c : Counter) : Counter :=
  if c.mark_value.isNone then { c with mark_value := some c.last }
  else { c with mark_value := none }

/-- `counter::Process`: one tracked process (pid modelled as `Nat`,
`SystemTime` as a `Nat` timestamp). -/
structure Process where
  cpu : Counter
  mem : Counter
  pid : Nat
  dead : Bool
  cmd : String
  exe : String
  title : String
  x : Nat
  y : Nat
  w : Nat
  h : Nat
  sided : Bool
  io_w_total : Nat
  io_r_total : Nat
  io_w_delta : Nat
  io_r_delta : Nat
  dead_since : Option Nat
  mark_r_io : Option Nat
  mark_w_io : Option Nat
deriving DecidableEq

/-- `impl Ord for Process` (`Process::cmp`).  The source unwraps
`self.dead_since` for BOTH operands (`sd` and `od` are both read from
`self`); `unwrap()` is modelled as `Option.getD 0`, which the result never
depends on because the two operands are identical. -/
def Process.cmp (self other : Process) : Ordering :=
  if self.dead ∧ other.dead = false then Ordering.gt
  else if self.dead = false ∧ other.dead then Ordering.lt
  else if self.dead then
    let sd := self.dead_since.getD 0
    let od := self.dead_since.getD 0
    if sd < od then Ordering.gt
    else if sd > od then Ordering.lt
    else Ordering.eq
  else if self.pid > other.pid then Ordering.lt
  else Ordering.gt

/-- `Process::new`. -/
def Process.new (pid : Nat) (sided : Bool) (cmd exe title : String) : Process :=
  { cpu := { Counter.default with scale_to := 100 }
    mem := { Counter.default with auto_scale := true }
    dead := false
    x := 0
    y := 0
    w := 0
    h := 0
    io_w_total := 0
    io_r_total := 0
    io_w_delta := 0
    io_r_delta := 0
    dead_since := none
    mark_r_io := none
    mark_w_io := none
    sided := sided
    pid := pid
    cmd := cmd
    exe := exe
    title := title }

/-- `Process::add`: append a CPU and a memory sample; the very first CPU
sample is replaced by 0. -/
def Process.add (p : Process) (cpu mem : Nat) : Process :=
  let p := if p.cpu.values = [] then { p with cpu := p.cpu.add 0 }
  else { p with cpu := p.cpu.add cpu }
  { p with mem := p.mem.add mem }

/-- `Process::toggle_mark`: toggle the memory counter's mark and the two
I/O mark baselines. -/
def Process.toggle_mark (p : Process) : Process :=
  let p := { p with mem := p.mem.toggle_mark }
  if p.mark_r_io.isNone then
    { p with mark_r_io := some p.io_r_total, mark_w_io := some p.io_w_total }
  else
    { p with mark_r_io := none, mark_w_io := none }

/-- `counter::char_for_value`: glyph for a fractional fill level.  The `f64`
argument is modelled as `Rat`; the `as usize` cast of the non-negative
product is `Int.toNat ∘ Rat.floor`.  Array indexing is modelled with `getD`
(the index stays in bounds for `0 < val < 1`). -/
def char_for_value (val : Rat) (conf : Config) : Char :=
  if val ≥ 1 then '█'
  else if val ≤ 0 then ' '
  else
    let steps : Rat := ((conf.steps + 1 : Nat) : Rat)
    let idx := (⌊val * steps⌋).toNat
    match conf.detail with
    | Detail.Low => LOW.getD idx ' '
    | Detail.Medium => MED.getD idx ' '
    | Detail.High => HGH.getD idx ' '

/-! ### layout.rs -/

def MIN_HEIGHT : Nat := 5

def SCROLL_HOME : Int := -9999999

def SCROLL_END : Int := 9999999

/-- `layout::Layout` (the external `sysinfo::System` collaborator is not part
of the core state and is omitted). -/
structure Layout where
  w : Nat
  h : Nat
  procs : List Process
  config : Config
  cpu_usage : Nat
  mem_usage : Nat
  top_item : Nat
  mark_since : Option Nat

/-- `Layout::proc_totals`: total number of watched processes, hidden ones
(zero-width rectangle) and dead ones. -/
def Layout.proc_totals (lay : Layout) : Nat × Nat × Nat :=
  let total := lay.procs.length
  if total = 0 then (0, 0, 0)
  else
    let hidden := lay.procs.countP (fun p => p.w = 0)
    let dead := lay.procs.countP (fun p => p.dead)
    (total, hidden, dead)

/-- `Layout::scroll`: move the scroll window by `shift` (`SCROLL_HOME` and
`SCROLL_END` are sentinel jumps); returns the updated layout together with
the `bool` the source returns (whether the view changed). -/
def Layout.scroll (lay : Layout) (shift : Int) : Layout × Bool :=
  let t := (lay.proc_totals).1
  let h := (lay.proc_totals).2.1
  if h = 0 then (lay, false)
  else
    let shown := t - h
    if shift = SCROLL_HOME then
      let res := lay.top_item ≠ 0
      ({ lay with top_item := 0 }, res)
    else if shift = SCROLL_END then
      let res := lay.top_item < t - shown
      ({ lay with top_item := t - shown }, res)
    else if shift < 0 then
      if lay.top_item = 0 then (lay, false)
      else
        let ushift := (-shift).toNat
        if ushift ≥ lay.top_item then ({ lay with top_item := 0 }, true)
        else ({ lay with top_item := lay.top_item - ushift }, true)
    else if shift > 0 then
      let ushift := shift.toNat
      if lay.top_item + shown ≥ t then (lay, false)
      else if lay.top_item + shown + ushift > t then
        ({ lay with top_item := t - shown }, true)
      else ({ lay with top_item := lay.top_item + ushift }, true)
    else (lay, false)

/-! ### Lemmas about `short_round` -/

theorem short_round_loop_down_le : ∀ val coef : Nat,
    (short_round_loop val coef true).1 * (short_round_loop val coef true).2 ≤ val * coef := by
  intro val
  induction val using Nat.strong_induction_on with
  | _ val ih =>
    intro coef
    unfold short_round_loop
    split
    · rename_i h
      simp only [Bool.true_eq_false, if_false]
      have h1 : val / 1024 * 1024 ≤ val := Nat.div_mul_le_self _ _
      have h2 : 1 ≤ val / 1024 := (Nat.one_le_div_iff (by norm_num)).2 h
      have hlt : val / 1024 < val := by omega
      have := ih (val / 1024) hlt (coef * 1024)
      calc (short_round_loop (val / 1024) (coef * 1024) true).1 *
            (short_round_loop (val / 1024) (coef * 1024) true).2
          ≤ (val / 1024) * (coef * 1024) := this
        _ = (val / 1024 * 1024) * coef := by ring
        _ ≤ val * coef := Nat.mul_le_mul_right _ h1
    · exact Nat.le_refl _

theorem short_round_loop_up_ge : ∀ val coef : Nat,
    val * coef ≤ (short_round_loop val coef false).1 * (short_round_loop val coef false).2 := by
  intro val
  induction val using Nat.strong_induction_on with
  | _ val ih =>
    intro coef
    unfold short_round_loop
    split
    · rename_i h
      have h1 := Nat.div_add_mod val 1024
      have h2 : val % 1024 < 1024 := Nat.mod_lt _ (by norm_num)
      have h3 : 1 ≤ val / 1024 := (Nat.one_le_div_iff (by norm_num)).2 h
      have hd : val / 1024 * 1024 ≤ val := Nat.div_mul_le_self _ _
      have hlt0 : val / 1024 < val := by omega
      by_cases hm : val % 1024 = 0
      · simp only [hm, if_pos, if_true, Nat.add_zero]
        have hv : val / 1024 * 1024 = val := by omega
        have := ih (val / 1024) hlt0 (coef * 1024)
        refine le_trans (le_of_eq ?_) this
        calc val * coef = (val / 1024 * 1024) * coef := by rw [hv]
          _ = val / 1024 * (coef * 1024) := by ring
      · simp only [hm, if_neg, if_false, if_true]
        have hlt : val / 1024 + 1 < val := by omega
        have := ih (val / 1024 + 1) hlt (coef * 1024)
        refine le_trans ?_ this
        have hb : val ≤ (val / 1024 + 1) * 1024 := by
          have : (val / 1024 + 1) * 1024 = val / 1024 * 1024 + 1024 := by ring
          omega
        calc val * coef ≤ ((val / 1024 + 1) * 1024) * coef := Nat.mul_le_mul_right _ hb
          _ = (val / 1024 + 1) * (coef * 1024) := by ring
    · exact Nat.le_refl _

theorem short_round_loop_coef_pos : ∀ (val coef : Nat) (down : Bool), 0 < coef →
    0 < (short_round_loop val coef down).2 := by
  intro val
  induction val using Nat.strong_induction_on with
  | _ val ih =>
    intro coef down hc
    unfold short_round_loop
    split
    · rename_i h
      have h1 : val / 1024 * 1024 ≤ val := Nat.div_mul_le_self _ _
      have h2 : 1 ≤ val / 1024 := (Nat.one_le_div_iff (by norm_num)).2 h
      refine ih _ ?_ (coef * 1024) down (by positivity)
      split <;> (try split) <;> omega
    · exact hc

/-- Rounding the same value down and up either yields identical digit/scale
pairs or strictly separated re-expanded values. -/
theorem short_round_loop_dichotomy : ∀ val coef : Nat, 0 < coef →
    short_round_loop val coef true = short_round_loop val coef false ∨
    (short_round_loop val coef true).1 * (short_round_loop val coef true).2 <
      (short_round_loop val coef false).1 * (short_round_loop val coef false).2 := by
  intro val
  induction val using Nat.strong_induction_on with
  | _ val ih =>
    intro coef hc
    by_cases h : 1024 ≤ val
    · have h1 : val / 1024 * 1024 ≤ val := Nat.div_mul_le_self _ _
      have h2 : 1 ≤ val / 1024 := (Nat.one_le_div_iff (by norm_num)).2 h
      have hlt0 : val / 1024 < val := by omega
      by_cases hm : val % 1024 = 0
      · have ed : short_round_loop val coef true =
            short_round_loop (val / 1024) (coef * 1024) true := by
          conv_lhs => unfold short_round_loop
          simp [h, hm]
        have eu : short_round_loop val coef false =
            short_round_loop (val / 1024) (coef * 1024) false := by
          conv_lhs => unfold short_round_loop
          simp [h, hm]
        rw [ed, eu]
        exact ih _ hlt0 _ (by positivity)
      · have ed : short_round_loop val coef true =
            short_round_loop (val / 1024) (coef * 1024) true := by
          conv_lhs => unfold short_round_loop
          simp [h, hm]
        have eu : short_round_loop val coef false =
            short_round_loop (val / 1024 + 1) (coef * 1024) false := by
          conv_lhs => unfold short_round_loop
          simp [h, hm]
        right
        rw [ed, eu]
        calc (short_round_loop (val / 1024) (coef * 1024) true).1 *
              (short_round_loop (val / 1024) (coef * 1024) true).2
            ≤ (val / 1024) * (coef * 1024) := short_round_loop_down_le _ _
          _ < (val / 1024 + 1) * (coef * 1024) := by
              have hpos : 0 < coef * 1024 := by positivity
              exact (Nat.mul_lt_mul_right hpos).2 (Nat.lt_succ_self _)
          _ ≤ (short_round_loop (val / 1024 + 1) (coef * 1024) false).1 *
              (short_round_loop (val / 1024 + 1) (coef * 1024) false).2 :=
            short_round_loop_up_ge _ _
    · left
      unfold short_round_loop
      simp [h]

theorem short_round_down_le (v : Nat) :
    (short_round v true).1 * (short_round v true).2 ≤ v := by
  unfold short_round
  split
  · simp
  · simp only [Bool.true_eq_false, false_and, if_false]
    calc (short_round_loop (v / 1024) 1024 true).1 *
          (short_round_loop (v / 1024) 1024 true).2
        ≤ (v / 1024) * 1024 := short_round_loop_down_le _ _
      _ ≤ v := Nat.div_mul_le_self _ _

theorem short_round_up_ge (v : Nat) :
    v ≤ (short_round v false).1 * (short_round v false).2 := by
  unfold short_round
  split
  · simp
  · rename_i h
    by_cases hm : v % 1024 = 0
    · simp only [hm, ne_eq, not_true_eq_false, and_false, if_false]
      calc v = v / 1024 * 1024 := by omega
        _ = (v / 1024) * 1024 := rfl
        _ ≤ _ := short_round_loop_up_ge _ _
    · simp only [hm, ne_eq, if_neg, not_false_eq_true, and_true, if_true]
      have : (false = false ∧ True) := by simp
      calc v ≤ (v / 1024 + 1) * 1024 := by omega
        _ ≤ _ := short_round_loop_up_ge _ _

theorem short_round_coef_pos (v : Nat) (down : Bool) : 0 < (short_round v down).2 := by
  unfold short_round
  split
  · norm_num
  · exact short_round_loop_coef_pos _ _ _ (by norm_num)

theorem short_round_dichotomy (v : Nat) :
    short_round v true = short_round v false ∨
    (short_round v true).1 * (short_round v true).2 <
      (short_round v false).1 * (short_round v false).2 := by
  by_cases hv : v < 1024
  · left
    unfold short_round
    simp [hv]
  · by_cases hm : v % 1024 = 0
    · have ed : short_round v true = short_round_loop (v / 1024) 1024 true := by
        unfold short_round
        simp [hv, hm]
      have eu : short_round v false = short_round_loop (v / 1024) 1024 false := by
        unfold short_round
        simp [hv, hm]
      rw [ed, eu]
      exact short_round_loop_dichotomy _ _ (by norm_num)
    · have ed : short_round v true = short_round_loop (v / 1024) 1024 true := by
        unfold short_round
        simp [hv, hm]
      have eu : short_round v false = short_round_loop (v / 1024 + 1) 1024 false := by
        unfold short_round
        simp [hv, hm]
      right
      rw [ed, eu]
      calc (short_round_loop (v / 1024) 1024 true).1 *
            (short_round_loop (v / 1024) 1024 true).2
          ≤ (v / 1024) * 1024 := short_round_loop_down_le _ _
        _ < (v / 1024 + 1) * 1024 := by omega
        _ ≤ _ := short_round_loop_up_ge _ _

/-! ### Lemmas about `Counter.add` -/

theorem Counter.add_display_cnt (c : Counter) (v : Nat) :
    (c.add v).display_cnt = c.display_cnt := by
  simp only [Counter.add]
  split_ifs <;> rfl

theorem Counter.add_values (c : Counter) (v : Nat) :
    (c.add v).values =
      if c.values.length = 0 ∨ c.values.length < c.display_cnt then c.values ++ [v]
      else c.values.tail ++ [v] := by
  simp only [Counter.add]
  split_ifs <;> rfl

theorem Counter.add_getLast (c : Counter) (v : Nat) :
    (c.add v).values.getLast? = some v := by
  rw [Counter.add_values]
  split_ifs <;> exact List.getLast?_concat _

/-- Folding `Counter.add` keeps the suffix of the pushed stream that fits in
`display_cnt` slots. -/
theorem foldl_add_values : ∀ (vs : List Nat) (c : Counter),
    1 ≤ c.display_cnt → c.values.length ≤ c.display_cnt →
    (vs.foldl Counter.add c).values =
      (c.values ++ vs).drop (c.values.length + vs.length - c.display_cnt) := by
  intro vs
  induction vs with
  | nil =>
    intro c h1 h2
    simp [Nat.sub_eq_zero_of_le h2]
  | cons v vs ih =>
    intro c h1 h2
    rw [List.foldl_cons]
    have hdc : (c.add v).display_cnt = c.display_cnt := Counter.add_display_cnt c v
    by_cases hlt : c.values.length < c.display_cnt
    · have hv : (c.add v).values = c.values ++ [v] := by
        rw [Counter.add_values]
        simp [hlt]
      have hlen : (c.add v).values.length ≤ (c.add v).display_cnt := by
        rw [hv, hdc, List.length_append]
        simp only [List.length_cons, List.length_nil]
        omega
      have := ih (c.add v) (by rw [hdc]; exact h1) hlen
      rw [this, hv, hdc]
      simp only [List.length_append, List.length_cons, List.length_nil,
        List.append_assoc, List.singleton_append]
      congr 1
      omega
    · have hlen0 : c.values.length = c.display_cnt := by omega
      have hne : c.values ≠ [] := by
        intro h0
        rw [h0] at hlen0
        simp at hlen0
        omega
      have hv : (c.add v).values = c.values.tail ++ [v] := by
        rw [Counter.add_values]
        have : ¬(c.values.length = 0 ∨ c.values.length < c.display_cnt) := by
          push_neg
          constructor
          · omega
          · omega
        rw [if_neg this]
      obtain ⟨a, l, hvals⟩ := List.exists_cons_of_ne_nil hne
      have hlenl : l.length + 1 = c.display_cnt := by
        rw [hvals] at hlen0
        simpa using hlen0
      have hlen : (c.add v).values.length ≤ (c.add v).display_cnt := by
        rw [hv, hdc, hvals, List.tail_cons, List.length_append]
        simp only [List.length_cons, List.length_nil]
        omega
      have := ih (c.add v) (by rw [hdc]; exact h1) hlen
      rw [this, hv, hdc, hvals]
      simp only [List.tail_cons, List.length_append, List.length_cons,
        List.append_assoc, List.singleton_append,
        List.cons_append, List.nil_append, List.length_nil]
      have e1 : l.length + (0 + 1) + vs.length - c.display_cnt = vs.length := by omega
      have e2 : l.length + 1 + (vs.length + 1) - c.display_cnt = vs.length + 1 := by omega
      rw [e1, e2, List.drop_succ_cons]

/-! ### Lemmas about the range scan and the packer -/

theorem foldl_min_le_init : ∀ (l : List Nat) (a : Nat),
    l.foldl (fun m v => if m > v then v else m) a ≤ a := by
  intro l
  induction l with
  | nil => intro a; exact le_rfl
  | cons u l ih =>
    intro a
    rw [List.foldl_cons]
    refine le_trans (ih _) ?_
    by_cases h : a > u <;> simp [h] <;> omega

theorem foldl_min_le_mem : ∀ (l : List Nat) (a : Nat), ∀ v ∈ l,
    l.foldl (fun m v => if m > v then v else m) a ≤ v := by
  intro l
  induction l with
  | nil => intro a v hv; cases hv
  | cons u l ih =>
    intro a v hv
    rw [List.foldl_cons]
    rcases List.mem_cons.1 hv with h | h
    · subst h
      refine le_trans (foldl_min_le_init _ _) ?_
      by_cases h : a > v <;> simp [h] <;> omega
    · exact ih _ v h

theorem foldl_max_ge_init : ∀ (l : List Nat) (a : Nat),
    a ≤ l.foldl (fun m v => if m < v then v else m) a := by
  intro l
  induction l with
  | nil => intro a; exact le_rfl
  | cons u l ih =>
    intro a
    rw [List.foldl_cons]
    refine le_trans ?_ (ih _)
    by_cases h : a < u <;> simp [h] <;> omega

theorem foldl_max_ge_mem : ∀ (l : List Nat) (a : Nat), ∀ v ∈ l,
    v ≤ l.foldl (fun m v => if m < v then v else m) a := by
  intro l
  induction l with
  | nil => intro a v hv; cases hv
  | cons u l ih =>
    intro a v hv
    rw [List.foldl_cons]
    rcases List.mem_cons.1 hv with h | h
    · subst h
      refine le_trans ?_ (foldl_max_ge_init _ _)
      by_cases h : a < v <;> simp [h] <;> omega
    · exact ih _ v h

theorem graph_height_pos (conf : Config) (n H : Nat) :
    0 < conf.graph_height n H := by
  simp only [Config.graph_height, Config.max_graph_height, Config.min_graph_height,
    GRAPH_AREA]
  split_ifs <;> positivity

/-- `char_for_value` only looks at the configuration's detail level. -/
theorem char_for_value_congr (val : Rat) (c1 c2 : Config)
    (h : c1.detail = c2.detail) :
    char_for_value val c1 = char_for_value val c2 := by
  simp only [char_for_value, Config.steps, h]

/-- The base height of the packing mode chosen by the packer: the stacked
minimum for `Line`, the side-by-side minimum for `Side`. -/
def Config.base_height (c : Config) (proc_count height : Nat) : Nat :=
  if c.packer proc_count height = Pack.Line then c.max_graph_height
  else c.min_graph_height

/-! ### Claims -/

/-- C8: `short_round` rounding down never exceeds the original value when
re-expanded (`digits * scale ≤ v`), rounding up never falls below it
(`v ≤ digits * scale`), and for 1056 the down-result is `(1, 1024)` and the
up-result `(2, 1024)`. -/
theorem C8_short_round_props :
    (∀ v : Nat, (short_round v true).1 * (short_round v true).2 ≤ v ∧
      v ≤ (short_round v false).1 * (short_round v false).2) ∧
    short_round 1056 true = (1, 1024) ∧ short_round 1056 false = (2, 1024) := by
  refine ⟨fun v => ⟨short_round_down_le v, short_round_up_ge v⟩, ?_, ?_⟩ <;>
    simp [short_round, short_round_loop]

/-- A dead panel that died at time 2 (more recently than `procDeadOld`). -/
def procDeadRecent : Process :=
  { Process.new 1 false "a" "a" "a" with dead := true, dead_since := some 2 }

/-- A dead panel that died at time 1 (earlier than `procDeadRecent`). -/
def procDeadOld : Process :=
  { Process.new 2 false "b" "b" "b" with dead := true, dead_since := some 1 }

/-- C4 (code bug): the claimed dead-panel tie-break fails in the source: the
comparison reads `self.dead_since` for BOTH operands, so two dead panels with
different death times compare `Equal` in both directions instead of the more
recently dead one sorting strictly first. -/
theorem C4_dead_order_bug :
    procDeadRecent.dead_since = some 2 ∧ procDeadOld.dead_since = some 1 ∧
    procDeadRecent.dead = true ∧ procDeadOld.dead = true ∧
    Process.cmp procDeadRecent procDeadOld = Ordering.eq ∧
    Process.cmp procDeadOld procDeadRecent = Ordering.eq :=
  ⟨rfl, rfl, rfl, rfl, rfl, rfl⟩

/-- Configuration that forces stacked packing (graph position `Top`), used
to exhibit the failure of C5's claimed height formula. -/
def confTop : Config := { Config.default with graph_pos := GraphPosition.Top }

/-- C5 counterexample: with stacked packing forced, 3 panels and 20 drawing
rows, the code assigns the bare minimum height 14 (because `14 * 3 ≥ 20`
leaves no leftover relative to the TOTAL panel count), while the claimed
formula `base + (H - base * visibleCount) / visibleCount` yields
`14 + (20 - 14 * 1) / 1 = 20`. -/
theorem C5_counterexample :
    confTop.graph_height 3 20 = 14 ∧
    confTop.visible_count 3 20 = 1 ∧
    confTop.base_height 3 20 = 14 ∧
    confTop.graph_height 3 20 ≠
      confTop.base_height 3 20 +
        (20 - confTop.base_height 3 20 * confTop.visible_count 3 20) /
          confTop.visible_count 3 20 := by
  refine ⟨rfl, rfl, rfl, ?_⟩
  decide

/-- C5 (amended): once a mode is chosen the base panel height is the mode's
minimum, and leftover rows are measured and divided against the TOTAL panel
count `n`, not the visible count: the assigned height is
`base + (H - base*n)/n` when `base*n < H` and exactly `base` otherwise. -/
theorem C5_height_distribution_amended (conf : Config) (n H : Nat) :
    conf.graph_height n H =
      if conf.base_height n H * n < H then
        conf.base_height n H + (H - conf.base_height n H * n) / n
      else conf.base_height n H := by
  by_cases hn : n = 0
  · subst hn
    simp only [Config.graph_height, Config.base_height]
    simp [Nat.div_zero]
  · simp only [Config.graph_height, Config.base_height, hn, if_false]

/-- A process that has received one sample pair (cpu 5, mem 7) and has no
mark set; used for C6. -/
def procMarkW : Process := (Process.new 3 false "p" "p" "p").add 5 7

/-- C6 counterexample: toggling the mark on a process captures the memory
and I/O baselines but never touches the CPU counter's `mark_value`, which
stays `none` although the claim requires it to be captured. -/
theorem C6_counterexample :
    procMarkW.cpu.mark_value = none ∧
    procMarkW.toggle_mark.mem.mark_value = some 7 ∧
    procMarkW.toggle_mark.mark_r_io = some 0 ∧
    procMarkW.toggle_mark.mark_w_io = some 0 ∧
    procMarkW.toggle_mark.cpu.mark_value = none := by
  refine ⟨rfl, rfl, rfl, rfl, rfl⟩

/-- C6 (amended): a single mark toggle switches the memory baseline and both
I/O baselines together — when they are in sync it captures all three from
the current values if they were unset and clears all three if they were set
— while the CPU counter is left completely untouched. -/
theorem C6_mark_toggle_amended (p : Process)
    (hsync : p.mem.mark_value.isNone = p.mark_r_io.isNone) :
    p.toggle_mark.cpu = p.cpu ∧
    (if p.mem.mark_value.isNone then
      p.toggle_mark.mem.mark_value = some p.mem.last ∧
      p.toggle_mark.mark_r_io = some p.io_r_total ∧
      p.toggle_mark.mark_w_io = some p.io_w_total
    else
      p.toggle_mark.mem.mark_value = none ∧
      p.toggle_mark.mark_r_io = none ∧
      p.toggle_mark.mark_w_io = none) := by
  by_cases h : p.mem.mark_value.isNone
  · have hr : p.mark_r_io.isNone := by rw [← hsync]; exact h
    simp [Process.toggle_mark, Counter.toggle_mark, h, hr]
  · have hr : ¬p.mark_r_io.isNone = true := by rw [← hsync]; exact h
    simp [Process.toggle_mark, Counter.toggle_mark, h, hr]

/-- Witness for C6's amended theorem at the concrete process `procMarkW`. -/
theorem C6_mark_toggle_amended_witness :
    procMarkW.toggle_mark.cpu = procMarkW.cpu ∧
    (if procMarkW.mem.mark_value.isNone then
      procMarkW.toggle_mark.mem.mark_value = some procMarkW.mem.last ∧
      procMarkW.toggle_mark.mark_r_io = some procMarkW.io_r_total ∧
      procMarkW.toggle_mark.mark_w_io = some procMarkW.io_w_total
    else
      procMarkW.toggle_mark.mem.mark_value = none ∧
      procMarkW.toggle_mark.mark_r_io = none ∧
      procMarkW.toggle_mark.mark_w_io = none) :=
  C6_mark_toggle_amended procMarkW rfl

/-- C9: at detail High the eight fractional steps `k/8` select the glyph of
index `k` in the nine-level ramp (strictly ascending), and any value `≥ 1`
selects the full block under every configuration. -/
theorem C9_glyph_selection :
    (∀ (conf : Config), conf.detail = Detail.High → ∀ k : Fin 8,
      char_for_value (((k : Nat) : Rat) / 8) conf = HGH.getD (k : Nat) ' ') ∧
    (∀ (conf : Config) (v : Rat), 1 ≤ v → char_for_value v conf = '█') := by
  constructor
  · intro conf hc k
    rw [char_for_value_congr _ conf Config.default (by rw [hc]; rfl)]
    fin_cases k <;>
      · simp only [char_for_value, Config.steps, Config.default]
        norm_num
        try rfl
  · intro conf v hv
    simp only [char_for_value, ge_iff_le]
    rw [if_pos hv]

/-- Witness for C9 at the step 3/8 and at the value 2. -/
theorem C9_glyph_selection_witness :
    char_for_value (((3 : Nat) : Rat) / 8) Config.default = HGH.getD 3 ' ' ∧
    char_for_value 2 Config.default = '█' :=
  ⟨C9_glyph_selection.1 Config.default rfl ⟨3, by norm_num⟩,
   C9_glyph_selection.2 Config.default 2 (by norm_num)⟩

/-- C10: `Process::add` replaces the very first CPU sample by 0 regardless
of its argument; afterwards the given CPU sample always becomes the newest
CPU element, and the memory sample always becomes the newest memory element
unchanged. -/
theorem C10_process_add (p : Process) (c m : Nat) :
    (p.cpu.values = [] → (p.add c m).cpu.values = [0]) ∧
    (p.cpu.values ≠ [] → (p.add c m).cpu.values.getLast? = some c) ∧
    (p.add c m).mem.values.getLast? = some m := by
  refine ⟨?_, ?_, ?_⟩
  · intro h
    simp only [Process.add, h, if_true]
    rw [Counter.add_values]
    simp [h]
  · intro h
    simp only [Process.add]
    rw [if_neg h]
    exact Counter.add_getLast _ _
  · simp only [Process.add]
    split_ifs <;> exact Counter.add_getLast _ _

/-- A freshly created process, used as C10's witness. -/
def procAddW : Process := Process.new 7 false "w" "w" "w"

/-- Witness for C10: the first `add` stores 0 for CPU, the second stores the
given CPU sample, and memory samples are stored as given. -/
theorem C10_process_add_witness :
    ((procAddW.add 5 9).cpu.values = [0]) ∧
    (((procAddW.add 5 9).add 6 11).cpu.values.getLast? = some 6) ∧
    ((procAddW.add 5 9).mem.values.getLast? = some 9) :=
  ⟨(C10_process_add procAddW 5 9).1 rfl,
   (C10_process_add (procAddW.add 5 9) 6 11).2.1 (by decide),
   (C10_process_add procAddW 5 9).2.2⟩

/-- C1: for a `Counter` of capacity `display_cnt ≥ 1` and a sequence of more
than `display_cnt` calls to `add` starting from an empty buffer, the buffer
holds exactly `display_cnt` elements: the most recent samples in arrival
order (oldest first, newest last). -/
theorem C1_counter_fifo (c : Counter) (vs : List Nat)
    (hempty : c.values = []) (hcap : 1 ≤ c.display_cnt)
    (hlong : c.display_cnt < vs.length) :
    (vs.foldl Counter.add c).values = vs.drop (vs.length - c.display_cnt) ∧
    (vs.foldl Counter.add c).values.length = c.display_cnt := by
  have h := foldl_add_values vs c hcap (by rw [hempty]; simp)
  rw [hempty] at h
  simp only [List.nil_append, List.length_nil, Nat.zero_add] at h
  refine ⟨h, ?_⟩
  rw [h, List.length_drop]
  omega

/-- A two-slot counter, used as C1's witness. -/
def counterFifoW : Counter := { Counter.default with display_cnt := 2 }

/-- Witness for C1: pushing 1, 2, 3 through a two-slot counter retains
exactly `[2, 3]`. -/
theorem C1_counter_fifo_witness :
    ([1, 2, 3].foldl Counter.add counterFifoW).values = [2, 3] ∧
    ([1, 2, 3].foldl Counter.add counterFifoW).values.length = 2 := by
  have h := C1_counter_fifo counterFifoW [1, 2, 3] rfl (by decide) (by decide)
  simpa using h

/-- C2: the layout packer shows at most `n` panels, the shown panels fit in
the drawing height, and whenever a panel is hidden one more panel of the
assigned height would overflow the screen. -/
theorem C2_packer_visible_bounds (conf : Config) (n H : Nat) (hn : 1 ≤ n) :
    conf.visible_count n H ≤ n ∧
    conf.visible_count n H * conf.graph_height n H ≤ H ∧
    (conf.visible_count n H < n →
      (conf.visible_count n H + 1) * conf.graph_height n H > H) := by
  have hpos := graph_height_pos conf n H
  have hvc : conf.visible_count n H =
      if H / conf.graph_height n H < n then H / conf.graph_height n H else n := rfl
  rw [hvc]
  split_ifs with hlt
  · refine ⟨le_of_lt hlt, Nat.div_mul_le_self H _, fun _ => ?_⟩
    have h1 := Nat.div_add_mod H (conf.graph_height n H)
    have h2 : H % conf.graph_height n H < conf.graph_height n H :=
      Nat.mod_lt _ hpos
    have h3 : (H / conf.graph_height n H + 1) * conf.graph_height n H =
        conf.graph_height n H * (H / conf.graph_height n H) +
          conf.graph_height n H := by ring
    omega
  · push_neg at hlt
    refine ⟨le_rfl, ?_, fun hc => absurd hc (lt_irrefl n)⟩
    calc n * conf.graph_height n H
        ≤ (H / conf.graph_height n H) * conf.graph_height n H :=
          Nat.mul_le_mul_right _ hlt
      _ ≤ H := Nat.div_mul_le_self _ _

/-- Witness for C2 at the default configuration, 3 panels and 20 rows
(visible count 2, panel height 8). -/
theorem C2_packer_visible_bounds_witness :
    Config.default.visible_count 3 20 ≤ 3 ∧
    Config.default.visible_count 3 20 * Config.default.graph_height 3 20 ≤ 20 ∧
    (Config.default.visible_count 3 20 < 3 →
      (Config.default.visible_count 3 20 + 1) * Config.default.graph_height 3 20 > 20) :=
  C2_packer_visible_bounds Config.default 3 20 (by norm_num)

/-- The rounded bounds produced from `mn ≤ mx` (with the digit bump applied
when the digits collide) are strictly separated. -/
theorem range_pair_lt (mn mx : Nat) (hle : mn ≤ mx) :
    (short_round mn true).1 * (short_round mn true).2 <
      (if (short_round mn true).1 = (short_round mx false).1
        then (short_round mx false).1 + 1 else (short_round mx false).1) *
      (short_round mx false).2 := by
  by_cases hb : (short_round mn true).1 = (short_round mx false).1
  · rw [if_pos hb]
    have h1 : (short_round mn true).1 * (short_round mn true).2 ≤ mn :=
      short_round_down_le mn
    have h2 : mx ≤ (short_round mx false).1 * (short_round mx false).2 :=
      short_round_up_ge mx
    have h3 : 0 < (short_round mx false).2 := short_round_coef_pos mx false
    have h4 : ((short_round mx false).1 + 1) * (short_round mx false).2 =
        (short_round mx false).1 * (short_round mx false).2 +
          (short_round mx false).2 := by ring
    omega
  · rw [if_neg hb]
    rcases Nat.lt_or_ge mn mx with hlt | hge
    · have h1 : (short_round mn true).1 * (short_round mn true).2 ≤ mn :=
        short_round_down_le mn
      have h2 : mx ≤ (short_round mx false).1 * (short_round mx false).2 :=
        short_round_up_ge mx
      omega
    · have heq : mn = mx := le_antisymm hle hge
      subst heq
      rcases short_round_dichotomy mn with he | hstrict
      · exact absurd (congrArg Prod.fst he) hb
      · exact hstrict

/-- The upper rounded bound (with the digit bump applied when the digits
collide) still dominates `mx`. -/
theorem range_pair_ge (mn mx : Nat) :
    mx ≤ (if (short_round mn true).1 = (short_round mx false).1
        then (short_round mx false).1 + 1 else (short_round mx false).1) *
      (short_round mx false).2 := by
  have h2 := short_round_up_ge mx
  split_ifs with hb
  · have h4 : ((short_round mx false).1 + 1) * (short_round mx false).2 =
        (short_round mx false).1 * (short_round mx false).2 +
          (short_round mx false).2 := by ring
    omega
  · exact h2

/-- A common bound on the start value and on every element bounds the
running-maximum fold. -/
theorem foldl_max_le_bound : ∀ (l : List Nat) (a B : Nat), a ≤ B →
    (∀ v ∈ l, v ≤ B) →
    l.foldl (fun m v => if m < v then v else m) a ≤ B := by
  intro l
  induction l with
  | nil =>
    intro a B ha _
    exact ha
  | cons u l ih =>
    intro a B ha hmem
    rw [List.foldl_cons]
    refine ih _ _ ?_ (fun v hv => hmem v (List.mem_cons_of_mem _ hv))
    by_cases h : a < u
    · simpa [h] using hmem u (List.mem_cons_self _ _)
    · simpa [h] using ha

/-- Inside the rounding-up loop, a `1024 ^ j` bound on the running value
bounds both the final product and the final scale. -/
theorem short_round_loop_up_le_pow : ∀ val coef j : Nat, val ≤ 1024 ^ j →
    (short_round_loop val coef false).1 * (short_round_loop val coef false).2 ≤
      1024 ^ j * coef ∧
    (short_round_loop val coef false).2 ≤ 1024 ^ j * coef := by
  intro val
  induction val using Nat.strong_induction_on with
  | _ val ih =>
    intro coef j hval
    unfold short_round_loop
    split
    · rename_i h
      have hj : 1 ≤ j := by
        rcases Nat.eq_zero_or_pos j with h0 | h1
        · subst h0
          simp at hval
          omega
        · exact h1
      have hpow : 1024 ^ j = 1024 ^ (j - 1) * 1024 := by
        conv_lhs => rw [show j = (j - 1) + 1 by omega]
        rw [pow_succ]
      have hd1 : val / 1024 * 1024 ≤ val := Nat.div_mul_le_self _ _
      have hd2 : 1 ≤ val / 1024 := (Nat.one_le_div_iff (by norm_num)).2 h
      by_cases hm : val % 1024 = 0
      · simp only [hm, if_pos, if_true, Nat.add_zero]
        have hQ : val / 1024 ≤ 1024 ^ (j - 1) := by
          rw [hpow] at hval
          omega
        have hrec := ih (val / 1024) (by omega) (coef * 1024) (j - 1) hQ
        constructor
        · calc (short_round_loop (val / 1024) (coef * 1024) false).1 *
              (short_round_loop (val / 1024) (coef * 1024) false).2
              ≤ 1024 ^ (j - 1) * (coef * 1024) := hrec.1
            _ = 1024 ^ j * coef := by rw [hpow]; ring
        · calc (short_round_loop (val / 1024) (coef * 1024) false).2
              ≤ 1024 ^ (j - 1) * (coef * 1024) := hrec.2
            _ = 1024 ^ j * coef := by rw [hpow]; ring
      · simp only [hm, if_neg, if_false, if_true]
        have hQ : val / 1024 + 1 ≤ 1024 ^ (j - 1) := by
          rw [hpow] at hval
          omega
        have hrec := ih (val / 1024 + 1) (by omega) (coef * 1024) (j - 1) hQ
        constructor
        · calc (short_round_loop (val / 1024 + 1) (coef * 1024) false).1 *
              (short_round_loop (val / 1024 + 1) (coef * 1024) false).2
              ≤ 1024 ^ (j - 1) * (coef * 1024) := hrec.1
            _ = 1024 ^ j * coef := by rw [hpow]; ring
        · calc (short_round_loop (val / 1024 + 1) (coef * 1024) false).2
              ≤ 1024 ^ (j - 1) * (coef * 1024) := hrec.2
            _ = 1024 ^ j * coef := by rw [hpow]; ring
    · constructor
      · exact Nat.mul_le_mul_right _ hval
      · exact Nat.le_mul_of_pos_left _ (by positivity)

/-- A `1024 ^ j` bound on the value bounds both the product and the scale of
the rounding-up result, so the `u64` products in `calculate_range` cannot
overflow for bounded samples. -/
theorem short_round_up_le_pow (v j : Nat) (hv : v ≤ 1024 ^ j) :
    (short_round v false).1 * (short_round v false).2 ≤ 1024 ^ j ∧
    (short_round v false).2 ≤ 1024 ^ j := by
  unfold short_round
  split
  · constructor
    · simpa using hv
    · simpa using Nat.one_le_pow j 1024 (by norm_num)
  · rename_i h
    push_neg at h
    have hj : 1 ≤ j := by
      rcases Nat.eq_zero_or_pos j with h0 | h1
      · subst h0
        simp at hv
        omega
      · exact h1
    have hpow : 1024 ^ j = 1024 ^ (j - 1) * 1024 := by
      conv_lhs => rw [show j = (j - 1) + 1 by omega]
      rw [pow_succ]
    by_cases hm : v % 1024 = 0
    · simp only [hm, ne_eq, not_true_eq_false, and_false, if_false]
      have hQ : v / 1024 ≤ 1024 ^ (j - 1) := by
        rw [hpow] at hv
        omega
      have hb := short_round_loop_up_le_pow (v / 1024) 1024 (j - 1) hQ
      constructor
      · calc (short_round_loop (v / 1024) 1024 false).1 *
            (short_round_loop (v / 1024) 1024 false).2
            ≤ 1024 ^ (j - 1) * 1024 := hb.1
          _ = 1024 ^ j := hpow.symm
      · calc (short_round_loop (v / 1024) 1024 false).2
            ≤ 1024 ^ (j - 1) * 1024 := hb.2
          _ = 1024 ^ j := hpow.symm
    · simp only [hm, ne_eq, if_neg, not_false_eq_true, and_true, if_true]
      have hQ : v / 1024 + 1 ≤ 1024 ^ (j - 1) := by
        rw [hpow] at hv
        omega
      have hb := short_round_loop_up_le_pow (v / 1024 + 1) 1024 (j - 1) hQ
      constructor
      · calc (short_round_loop (v / 1024 + 1) 1024 false).1 *
            (short_round_loop (v / 1024 + 1) 1024 false).2
            ≤ 1024 ^ (j - 1) * 1024 := hb.1
          _ = 1024 ^ j := hpow.symm
      · calc (short_round_loop (v / 1024 + 1) 1024 false).2
            ≤ 1024 ^ (j - 1) * 1024 := hb.2
          _ = 1024 ^ j := hpow.symm

/-- Unfolding equation for the `gmin` field of `calculate_range` when the
guard does not fire. -/
theorem calculate_range_gmin (c : Counter)
    (h : ¬(c.auto_scale = false ∨ c.values = [])) :
    c.calculate_range.gmin =
      (short_round (c.values.foldl (fun m v => if m > v then v else m)
        (c.values.headD 0)) true).1 *
      (short_round (c.values.foldl (fun m v => if m > v then v else m)
        (c.values.headD 0)) true).2 % 2 ^ 64 := by
  simp only [Counter.calculate_range]
  rw [if_neg h]

/-- Unfolding equation for the `gmax` field of `calculate_range` when the
guard does not fire. -/
theorem calculate_range_gmax (c : Counter)
    (h : ¬(c.auto_scale = false ∨ c.values = [])) :
    c.calculate_range.gmax =
      (if (short_round (c.values.foldl (fun m v => if m > v then v else m)
            (c.values.headD 0)) true).1 =
          (short_round (c.values.foldl (fun m v => if m < v then v else m) 0)
            false).1
        then (short_round (c.values.foldl (fun m v => if m < v then v else m) 0)
          false).1 + 1
        else (short_round (c.values.foldl (fun m v => if m < v then v else m) 0)
          false).1) *
      (short_round (c.values.foldl (fun m v => if m < v then v else m) 0)
        false).2 % 2 ^ 64 := by
  simp only [Counter.calculate_range]
  rw [if_neg h]

/-- An auto-scaled counter holding the single sample `u64::MAX`
(`2 ^ 64 - 1`), used to exhibit the overflow in `calculate_range`. -/
def counterOverflowW : Counter :=
  { Counter.default with auto_scale := true, values := [2 ^ 64 - 1] }

/-- C7 counterexample: at `values = [u64::MAX]` rounding the maximum up
yields digits 16 at scale `2 ^ 60`; the `u64` product `16 * 2 ^ 60 = 2 ^ 64`
wraps to 0, so `gmin < gmax` fails (`gmax = 0` while `gmin = 15 * 2 ^ 60`)
and `gmax` does not enclose the retained sample. -/
theorem C7_counterexample :
    counterOverflowW.calculate_range.gmin = 15 * 2 ^ 60 ∧
    counterOverflowW.calculate_range.gmax = 0 ∧
    ¬(counterOverflowW.calculate_range.gmin <
        counterOverflowW.calculate_range.gmax) ∧
    ¬(2 ^ 64 - 1 ≤ counterOverflowW.calculate_range.gmax) := by
  have hg : ¬(counterOverflowW.auto_scale = false ∨ counterOverflowW.values = []) := by
    simp [counterOverflowW, Counter.default]
  have hfmin : counterOverflowW.values.foldl (fun m v => if m > v then v else m)
      (counterOverflowW.values.headD 0) = 18446744073709551615 := by
    simp [counterOverflowW, Counter.default]
  have hfmax : counterOverflowW.values.foldl (fun m v => if m < v then v else m) 0 =
      18446744073709551615 := by
    simp [counterOverflowW, Counter.default]
  have hdown : short_round 18446744073709551615 true = (15, 2 ^ 60) := by
    simp [short_round, short_round_loop]
  have hup : short_round 18446744073709551615 false = (16, 2 ^ 60) := by
    simp [short_round, short_round_loop]
  have hmin : counterOverflowW.calculate_range.gmin = 15 * 2 ^ 60 := by
    rw [calculate_range_gmin counterOverflowW hg, hfmin, hdown]
    norm_num
  have hmax : counterOverflowW.calculate_range.gmax = 0 := by
    rw [calculate_range_gmax counterOverflowW hg, hfmin, hfmax, hdown, hup]
    norm_num
  refine ⟨hmin, hmax, ?_, ?_⟩
  · rw [hmin, hmax]
    norm_num
  · rw [hmax]
    norm_num

/-- C7 (amended): for an auto-scaled counter with a non-empty buffer whose
samples do not exceed `2 ^ 60` (so the `u64` range products cannot
overflow), `calculate_range` produces a strictly non-degenerate range
(`gmin < gmax`) that encloses every retained sample. -/
theorem C7_calculate_range_amended (c : Counter) (hauto : c.auto_scale = true)
    (hne : c.values ≠ []) (hbound : ∀ v ∈ c.values, v ≤ 2 ^ 60) :
    c.calculate_range.gmin < c.calculate_range.gmax ∧
    ∀ v ∈ c.values, c.calculate_range.gmin ≤ v ∧ v ≤ c.calculate_range.gmax := by
  have hguard : ¬(c.auto_scale = false ∨ c.values = []) := by
    simp [hauto, hne]
  have hgmin := calculate_range_gmin c hguard
  have hgmax := calculate_range_gmax c hguard
  set MN := c.values.foldl (fun m v => if m > v then v else m) (c.values.headD 0)
    with hMN
  set MX := c.values.foldl (fun m v => if m < v then v else m) 0 with hMX
  obtain ⟨a, l, hvals⟩ := List.exists_cons_of_ne_nil hne
  have hmema : a ∈ c.values := by
    rw [hvals]
    exact List.mem_cons_self _ _
  have hminle : ∀ v ∈ c.values, MN ≤ v :=
    fun v hv => foldl_min_le_mem c.values (c.values.headD 0) v hv
  have hmaxge : ∀ v ∈ c.values, v ≤ MX :=
    fun v hv => foldl_max_ge_mem c.values 0 v hv
  have hmnmx : MN ≤ MX := le_trans (hminle a hmema) (hmaxge a hmema)
  have hMXle : MX ≤ 2 ^ 60 :=
    foldl_max_le_bound c.values 0 (2 ^ 60) (Nat.zero_le _) hbound
  have hMNle : MN ≤ 2 ^ 60 := le_trans hmnmx hMXle
  have hMX6 : MX ≤ 1024 ^ 6 := by
    calc MX ≤ 2 ^ 60 := hMXle
      _ = 1024 ^ 6 := by norm_num
  have hup := short_round_up_le_pow MX 6 hMX6
  have hgmin_lt : (short_round MN true).1 * (short_round MN true).2 < 2 ^ 64 :=
    lt_of_le_of_lt (le_trans (short_round_down_le MN) hMNle) (by norm_num)
  have hgmax_lt : (if (short_round MN true).1 = (short_round MX false).1
      then (short_round MX false).1 + 1 else (short_round MX false).1) *
      (short_round MX false).2 < 2 ^ 64 := by
    split_ifs
    · calc ((short_round MX false).1 + 1) * (short_round MX false).2
          = (short_round MX false).1 * (short_round MX false).2 +
            (short_round MX false).2 := by ring
        _ ≤ 1024 ^ 6 + 1024 ^ 6 := Nat.add_le_add hup.1 hup.2
        _ < 2 ^ 64 := by norm_num
    · calc (short_round MX false).1 * (short_round MX false).2
          ≤ 1024 ^ 6 := hup.1
        _ < 2 ^ 64 := by norm_num
  refine ⟨?_, fun v hv => ⟨?_, ?_⟩⟩
  · rw [hgmin, hgmax, Nat.mod_eq_of_lt hgmin_lt, Nat.mod_eq_of_lt hgmax_lt]
    exact range_pair_lt MN MX hmnmx
  · rw [hgmin, Nat.mod_eq_of_lt hgmin_lt]
    exact le_trans (short_round_down_le MN) (hminle v hv)
  · rw [hgmax, Nat.mod_eq_of_lt hgmax_lt]
    exact le_trans (hmaxge v hv) (range_pair_ge MN MX)

/-- An auto-scaled counter holding the samples 1056 and 500, used as C7's
witness. -/
def counterRangeW : Counter :=
  { Counter.default with auto_scale := true, values := [1056, 500] }

/-- Witness for C7's amended theorem at `counterRangeW`, instantiating the
sample bound at the retained sample 1056. -/
theorem C7_calculate_range_amended_witness :
    counterRangeW.calculate_range.gmin < counterRangeW.calculate_range.gmax ∧
    (counterRangeW.calculate_range.gmin ≤ 1056 ∧
      1056 ≤ counterRangeW.calculate_range.gmax) :=
  ⟨(C7_calculate_range_amended counterRangeW rfl (by decide) (by decide)).1,
   (C7_calculate_range_amended counterRangeW rfl (by decide) (by decide)).2 1056
     (by decide)⟩

/-- C3: every scroll operation keeps `top_item` within
`[0, total - visibleCount]` (`visibleCount` being the number of shown
panels), returns `true` exactly when `top_item` actually changed, and when no
panel is hidden (`visibleCount = total`) it leaves `top_item` unchanged and
returns `false`. -/
theorem C3_scroll_window (lay : Layout) (shift : Int)
    (hrange : lay.top_item ≤
      lay.proc_totals.1 - (lay.proc_totals.1 - lay.proc_totals.2.1)) :
    (lay.scroll shift).1.top_item ≤
      lay.proc_totals.1 - (lay.proc_totals.1 - lay.proc_totals.2.1) ∧
    ((lay.scroll shift).2 = true ↔
      (lay.scroll shift).1.top_item ≠ lay.top_item) ∧
    (lay.proc_totals.1 - lay.proc_totals.2.1 = lay.proc_totals.1 →
      (lay.scroll shift).1.top_item = lay.top_item ∧
        (lay.scroll shift).2 = false) := by
  have ht : lay.proc_totals.2.1 ≤ lay.proc_totals.1 := by
    simp only [Layout.proc_totals]
    split_ifs with h0
    · exact le_rfl
    · exact List.countP_le_length _
  simp only [Layout.scroll]
  rcases hPT : lay.proc_totals with ⟨T, HID, DEAD⟩
  rw [hPT] at ht hrange
  dsimp only at ht hrange ⊢
  split_ifs
  · -- nothing hidden: early no-op
    exact ⟨hrange, by simp, fun _ => ⟨rfl, rfl⟩⟩
  · -- Home jump
    dsimp only
    refine ⟨Nat.zero_le _, ?_, fun hfull => absurd hfull (by omega)⟩
    simp only [decide_eq_true_eq]
    omega
  · -- End jump
    dsimp only
    refine ⟨le_rfl, ?_, fun hfull => absurd hfull (by omega)⟩
    simp only [decide_eq_true_eq]
    omega
  · -- scroll up, already at the top
    exact ⟨hrange, by simp, fun _ => ⟨rfl, rfl⟩⟩
  · -- scroll up saturating at 0
    dsimp only
    refine ⟨Nat.zero_le _, ?_, fun hfull => absurd hfull (by omega)⟩
    simp
    omega
  · -- scroll up by the requested amount
    dsimp only
    refine ⟨by omega, ?_, fun hfull => absurd hfull (by omega)⟩
    simp
    omega
  · -- scroll down with the window already at the end
    exact ⟨hrange, by simp, fun _ => ⟨rfl, rfl⟩⟩
  · -- scroll down saturating at the end
    dsimp only
    refine ⟨le_rfl, ?_, fun hfull => absurd hfull (by omega)⟩
    simp
    omega
  · -- scroll down by the requested amount
    dsimp only
    refine ⟨by omega, ?_, fun hfull => absurd hfull (by omega)⟩
    simp
    omega
  · -- zero shift
    exact ⟨hrange, by simp, fun _ => ⟨rfl, rfl⟩⟩

/-- A layout with two panels, one shown (`w = 40`) and one hidden (`w = 0`),
used as C3's witness. -/
def layoutW : Layout :=
  { w := 40
    h := 20
    procs := [{ Process.new 1 false "a" "a" "a" with w := 40 },
              Process.new 2 false "b" "b" "b"]
    config := Config.default
    cpu_usage := 0
    mem_usage := 0
    top_item := 0
    mark_since := none }

/-- Witness for C3: scrolling the two-panel layout down by one. -/
theorem C3_scroll_window_witness :
    (layoutW.scroll 1).1.top_item ≤
      layoutW.proc_totals.1 - (layoutW.proc_totals.1 - layoutW.proc_totals.2.1) ∧
    ((layoutW.scroll 1).2 = true ↔
      (layoutW.scroll 1).1.top_item ≠ layoutW.top_item) ∧
    (layoutW.proc_totals.1 - layoutW.proc_totals.2.1 = layoutW.proc_totals.1 →
      (layoutW.scroll 1).1.top_item = layoutW.top_item ∧
        (layoutW.scroll 1).2 = false) :=
  C3_scroll_window layoutW 1 (by decide)

end PWatch
